import Mathlib

/-!
Verification of the SMASH Action / random-sampling / binary-output core.

This file gives a shallow embedding, in Lean 4, of the parts of the SMASH
sources relevant to the Action channel bookkeeping (`Action::add_process`,
`Action::add_processes`, `Action::choose_channel`, `Action::operator<` from
`action.h`), the random-sampling service (`random.h`, `random.cc`) and the
binary collision output (`binaryoutput.cc`), together with proofs of the
behavioural properties these functions do or do not satisfy.

Floating-point weights, times and output values are modelled by exact
rationals `ℚ`: the properties at issue are order/accumulation properties of
the algorithms, not rounding behaviour.
-/

namespace Smash

/-- Modelled from the spec: the process-type tag of a channel
(`ProcessType` lives in `processbranch.h`, which is not among the sources;
the only constructor the embedded code inspects is `String`). -/
inductive ProcessType where
  | none
  | elastic
  | twoToOne
  | twoToTwo
  | decay
  | String
deriving DecidableEq, Repr

/-- Modelled from the spec: a channel / subprocess branch
(`processbranch.h` is not among the sources).  A branch carries a
non-negative sampling weight, the number of final-state particles
(`particle_number()`) and a process-type tag (`get_type()`). -/
structure ProcessBranch where
  weight : ℚ
  particle_number : ℕ
  ptype : ProcessType
deriving DecidableEq, Repr

/-- Modelled from the spec: the negligible-weight threshold `really_small`
(a fixed small positive constant from `constants.h`, which is not among the
sources). -/
def really_small : ℚ := 1 / 1000000

theorem really_small_pos : 0 < really_small := by norm_num [really_small]

/-- The mutable state `Action::add_process` / `Action::add_processes`
operate on: the subprocess list and the cached total weight, both passed by
reference in the source. -/
structure BranchState where
  subprocesses : List ProcessBranch
  total_weight : ℚ
deriving DecidableEq, Repr

/-- `Action::add_process` (action.h): append the branch and add its weight
to the running total, but only when its weight exceeds `really_small`. -/
def add_process (p : ProcessBranch) (s : BranchState) : BranchState :=
  if really_small < p.weight then
    { subprocesses := s.subprocesses ++ [p],
      total_weight := s.total_weight + p.weight }
  else s

/-- `Action::add_processes` (action.h): move the whole given branch list
into the subprocess list (replacing it when it was empty, appending
otherwise) and add every given weight to the running total — with no
`really_small` filtering. -/
def add_processes (pv : List ProcessBranch) (s : BranchState) : BranchState :=
  if s.subprocesses.isEmpty then
    { subprocesses := pv,
      total_weight := pv.foldl (fun acc p => acc + p.weight) s.total_weight }
  else
    { subprocesses := s.subprocesses ++ pv,
      total_weight := pv.foldl (fun acc p => acc + p.weight) s.total_weight }

/-- One call in a sequence of `add_process` / `add_processes` calls. -/
inductive BranchOp where
  | one : ProcessBranch → BranchOp
  | many : List ProcessBranch → BranchOp
deriving DecidableEq, Repr

def applyBranchOp (op : BranchOp) (s : BranchState) : BranchState :=
  match op with
  | .one p => add_process p s
  | .many pv => add_processes pv s

/-- A whole call sequence, applied in order. -/
def runBranchOps (ops : List BranchOp) (s : BranchState) : BranchState :=
  ops.foldl (fun s op => applyBranchOp op s) s

/-- Sum of the weights of a branch list. -/
def weightSum (l : List ProcessBranch) : ℚ :=
  (l.map ProcessBranch.weight).sum

theorem weightSum_append (l₁ l₂ : List ProcessBranch) :
    weightSum (l₁ ++ l₂) = weightSum l₁ + weightSum l₂ := by
  simp [weightSum]

theorem foldl_add_weight (pv : List ProcessBranch) (t : ℚ) :
    pv.foldl (fun acc p => acc + p.weight) t = t + weightSum pv := by
  induction pv generalizing t with
  | nil => simp [weightSum]
  | cons p rest ih =>
    simp only [List.foldl_cons, ih, weightSum, List.map_cons, List.sum_cons]
    ring

/-- The cached-total-weight invariant. -/
def totalWeightInv (s : BranchState) : Prop :=
  s.total_weight = weightSum s.subprocesses

theorem add_process_inv (p : ProcessBranch) (s : BranchState)
    (h : totalWeightInv s) : totalWeightInv (add_process p s) := by
  unfold totalWeightInv add_process at *
  split
  · simp [weightSum_append, weightSum, h]
  · exact h

theorem add_processes_inv (pv : List ProcessBranch) (s : BranchState)
    (h : totalWeightInv s) : totalWeightInv (add_processes pv s) := by
  unfold totalWeightInv add_processes at *
  split
  · next hemp =>
    have : s.subprocesses = [] := List.isEmpty_iff.mp hemp
    simp only [foldl_add_weight, h, this, weightSum]
    simp
  · simp [foldl_add_weight, weightSum_append, h]

/--
**C1** (amended).  The cached total weight equals the sum of the weights of
the channels currently retained in the subprocess list, after any sequence
of `add_process` / `add_processes` calls starting from a state satisfying
that invariant; and `add_process` silently discards (does not append, does
not count) a single channel whose weight is at or below `really_small`.
`add_processes`, by contrast, performs no threshold filtering (see the
counterexample). -/
theorem total_weight_invariant :
    (∀ (ops : List BranchOp) (s : BranchState), totalWeightInv s →
        totalWeightInv (runBranchOps ops s)) ∧
    (∀ (p : ProcessBranch) (s : BranchState), p.weight ≤ really_small →
        add_process p s = s) := by
  constructor
  · intro ops
    induction ops with
    | nil => intro s h; exact h
    | cons op rest ih =>
      intro s h
      have h1 : totalWeightInv (applyBranchOp op s) := by
        cases op with
        | one p => exact add_process_inv p s h
        | many pv => exact add_processes_inv pv s h
      simpa [runBranchOps] using ih (applyBranchOp op s) h1
  · intro p s hw
    unfold add_process
    rw [if_neg (not_lt.mpr hw)]

/-- Witness for the hypotheses of `total_weight_invariant`, at a concrete
call sequence and a concrete negligible-weight channel. -/
theorem total_weight_invariant_witness :
    totalWeightInv (runBranchOps
      [BranchOp.many [⟨3, 2, ProcessType.elastic⟩],
       BranchOp.one ⟨5, 1, ProcessType.decay⟩] ⟨[], 0⟩) ∧
    add_process ⟨0, 1, ProcessType.elastic⟩ ⟨[], 0⟩ = ⟨[], 0⟩ :=
  ⟨total_weight_invariant.1 _ ⟨[], 0⟩ (by simp [totalWeightInv, weightSum]),
   total_weight_invariant.2 _ ⟨[], 0⟩ (le_of_lt really_small_pos)⟩

/--
**C1** counterexample.  A channel whose weight is at or below
`really_small` is *not* discarded by `add_processes`: it is retained in the
subprocess list and its weight is counted in the cached total. -/
theorem add_processes_keeps_negligible_channel :
    (⟨really_small, 1, ProcessType.elastic⟩ : ProcessBranch).weight ≤ really_small ∧
    (add_processes [⟨really_small, 1, ProcessType.elastic⟩] ⟨[], 0⟩).subprocesses
      = [⟨really_small, 1, ProcessType.elastic⟩] ∧
    (add_processes [⟨really_small, 1, ProcessType.elastic⟩] ⟨[], 0⟩).total_weight ≠ 0 := by
  refine ⟨le_refl _, ?_, ?_⟩ <;> norm_num [add_processes, really_small]

/-- The skip condition in the `choose_channel` loop (action.h): a branch
with no well-defined final state (`particle_number() < 1`) that is not a
string process is passed over without being accumulated or selected. -/
def skippedBranch (p : ProcessBranch) : Bool :=
  decide (p.particle_number < 1) && decide (p.ptype ≠ ProcessType.String)

/-- The diagnostic context reported by `choose_channel` when the weighted
walk falls off the end of the subprocess list: the number of channels
(`subprocesses.size()`), the accumulated weight sum, the total weight and
the drawn value, in the order they are logged before the throw. -/
structure ChooseChannelFailure where
  num_channels : ℕ
  weight_sum : ℚ
  total_weight : ℚ
  random_weight : ℚ
deriving DecidableEq, Repr

/-- The loop of `Action::choose_channel` (action.h): walk the subprocess
list accumulating weights of non-skipped branches, returning the first
branch whose accumulated sum reaches the drawn value `r`; on fallthrough,
produce the fatal diagnostic record (the throw is modelled by
`Except.error`).  `n` is the length of the full subprocess list. -/
def chooseChannelLoop (total_weight r : ℚ) (n : ℕ) :
    List ProcessBranch → ℚ → Except ChooseChannelFailure ProcessBranch
  | [], weight_sum => .error ⟨n, weight_sum, total_weight, r⟩
  | p :: rest, weight_sum =>
    if skippedBranch p then chooseChannelLoop total_weight r n rest weight_sum
    else if r ≤ weight_sum + p.weight then .ok p
    else chooseChannelLoop total_weight r n rest (weight_sum + p.weight)

/-- `Action::choose_channel` (action.h), with the single uniform draw
`random_weight ∈ [0, total_weight)` made an explicit argument `r`. -/
def choose_channel (subprocesses : List ProcessBranch) (total_weight r : ℚ) :
    Except ChooseChannelFailure ProcessBranch :=
  chooseChannelLoop total_weight r subprocesses.length subprocesses 0

/-- The channel-selection rule exactly as the specification words it (for
comparison with `choose_channel`): walk the *whole* channel list
accumulating every weight and select the first channel whose cumulative
weight meets or exceeds the draw. -/
def specFirstReaching (r : ℚ) :
    List ProcessBranch → ℚ → Option ProcessBranch
  | [], _ => none
  | p :: rest, acc =>
    if r ≤ acc + p.weight then some p else specFirstReaching r rest (acc + p.weight)

/-- The non-skipped (selectable) branches of a subprocess list. -/
def effectiveBranches (l : List ProcessBranch) : List ProcessBranch :=
  l.filter (fun p => !skippedBranch p)

theorem chooseChannelLoop_toOption (total r : ℚ) (n : ℕ)
    (l : List ProcessBranch) (acc : ℚ) :
    (chooseChannelLoop total r n l acc).toOption
      = specFirstReaching r (effectiveBranches l) acc := by
  induction l generalizing acc with
  | nil => simp [chooseChannelLoop, effectiveBranches, specFirstReaching, Except.toOption]
  | cons p rest ih =>
    by_cases hskip : skippedBranch p
    · simp [chooseChannelLoop, hskip, effectiveBranches, ih]
    · by_cases hr : r ≤ acc + p.weight
      · simp [chooseChannelLoop, hskip, hr, effectiveBranches, specFirstReaching,
          Except.toOption]
      · simp [chooseChannelLoop, hskip, hr, effectiveBranches, specFirstReaching, ih]

/--
**C2** (amended).  `choose_channel` implements the claimed single-draw
weighted walk up to one carve-out: branches with no final-state particles
that are not string processes are skipped entirely (neither accumulated nor
selectable).  On the skip-free remainder of the list the selected channel
is exactly the first one whose cumulative weight meets or exceeds the draw,
ties broken by list order, with no second draw. -/
theorem choose_channel_first_reaching (subprocesses : List ProcessBranch)
    (total_weight r : ℚ) :
    (choose_channel subprocesses total_weight r).toOption
      = specFirstReaching r (effectiveBranches subprocesses) 0 :=
  chooseChannelLoop_toOption total_weight r subprocesses.length subprocesses 0

/--
**C2** counterexample.  With a zero-final-state non-string branch first in
the list, `choose_channel` does *not* select the first channel whose
cumulative weight meets the draw: the spec walk selects the first branch
(cumulative weight 5 ≥ draw 3), the code skips it and selects the second. -/
theorem choose_channel_skip_counterexample :
    choose_channel
        [⟨5, 0, ProcessType.elastic⟩, ⟨5, 1, ProcessType.elastic⟩] 10 3
      = Except.ok ⟨5, 1, ProcessType.elastic⟩ ∧
    specFirstReaching 3
        [⟨5, 0, ProcessType.elastic⟩, ⟨5, 1, ProcessType.elastic⟩] 0
      = some ⟨5, 0, ProcessType.elastic⟩ ∧
    (⟨5, 1, ProcessType.elastic⟩ : ProcessBranch) ≠ ⟨5, 0, ProcessType.elastic⟩ := by
  refine ⟨?_, ?_, by decide⟩ <;>
    norm_num [choose_channel, chooseChannelLoop, specFirstReaching, skippedBranch] <;>
    decide

theorem chooseChannelLoop_error (total r : ℚ) (n : ℕ)
    (l : List ProcessBranch) (acc : ℚ) (e : ChooseChannelFailure)
    (h : chooseChannelLoop total r n l acc = .error e) :
    e = ⟨n, acc + weightSum (effectiveBranches l), total, r⟩ := by
  induction l generalizing acc with
  | nil =>
    simp only [chooseChannelLoop, Except.error.injEq] at h
    simp [← h, effectiveBranches, weightSum]
  | cons p rest ih =>
    by_cases hskip : skippedBranch p
    · simp only [chooseChannelLoop, hskip, if_true] at h
      have := ih acc h
      simpa [effectiveBranches, hskip] using this
    · by_cases hr : r ≤ acc + p.weight
      · simp [chooseChannelLoop, hskip, hr] at h
      · simp only [chooseChannelLoop, hskip, hr, if_false, Bool.false_eq_true,
          if_neg, if_true] at h
        have := ih (acc + p.weight) h
        rw [this]
        simp [effectiveBranches, hskip, weightSum]
        ring

/--
**C3**.  If the weighted walk in `choose_channel` reaches the end of the
subprocess list without selecting a channel, the call does not return a
default channel but fails (the logged fatal error followed by a throw is
modelled by `Except.error`), and the reported diagnostic context is exactly
the number of channels, the accumulated weight sum (the sum over the
non-skipped branches), the total weight, and the draw value. -/
theorem choose_channel_exhaustion_diagnostics
    (subprocesses : List ProcessBranch) (total_weight r : ℚ)
    (e : ChooseChannelFailure)
    (h : choose_channel subprocesses total_weight r = .error e) :
    e.num_channels = subprocesses.length ∧
    e.weight_sum = weightSum (effectiveBranches subprocesses) ∧
    e.total_weight = total_weight ∧
    e.random_weight = r := by
  have := chooseChannelLoop_error total_weight r subprocesses.length
    subprocesses 0 e h
  rw [this]
  norm_num

/-- Witness for `choose_channel_exhaustion_diagnostics` at a concrete
subprocess list whose effective weight sum is exceeded by the draw. -/
theorem choose_channel_exhaustion_diagnostics_witness :
    choose_channel [⟨1, 1, ProcessType.elastic⟩] 1 2 = .error ⟨1, 1, 1, 2⟩ ∧
    ((⟨1, 1, 1, 2⟩ : ChooseChannelFailure).num_channels
        = ([⟨1, 1, ProcessType.elastic⟩] : List ProcessBranch).length ∧
      (⟨1, 1, 1, 2⟩ : ChooseChannelFailure).weight_sum
        = weightSum (effectiveBranches [⟨1, 1, ProcessType.elastic⟩]) ∧
      (⟨1, 1, 1, 2⟩ : ChooseChannelFailure).total_weight = 1 ∧
      (⟨1, 1, 1, 2⟩ : ChooseChannelFailure).random_weight = 2) := by
  have h : choose_channel [⟨1, 1, ProcessType.elastic⟩] 1 2
      = .error ⟨1, 1, 1, 2⟩ := by
    norm_num [choose_channel, chooseChannelLoop, skippedBranch]
  exact ⟨h, choose_channel_exhaustion_diagnostics _ 1 2 _ h⟩

/-- The state of `random::BesselSampler` (random.cc) relevant to the pair
returned by `sample()`: `N_` (the absolute value of the fixed difference)
and `N_is_positive_` (whether the fixed difference is non-negative).  The
remaining members (`a_`, `m_`, `mu_`, `sigma_`, the direct-sampling
distribution) only determine which branch computes the random smaller
member of the pair, which is abstracted as an explicit draw below. -/
structure BesselSampler where
  N : ℕ
  N_is_positive : Bool
deriving DecidableEq, Repr

/-- The member initializers of `random::BesselSampler::BesselSampler`
(random.cc lines 17-22): `N_(std::abs(fixed_difference))`,
`N_is_positive_(fixed_difference >= 0)`.  The two Poisson means enter only
the internal sampling parameters, not these two fields; the constructor
asserts they are non-negative. -/
def BesselSampler.construct (poisson_mean1 poisson_mean2 : ℚ)
    (fixed_difference : ℤ) : BesselSampler :=
  ⟨fixed_difference.natAbs, decide (0 ≤ fixed_difference)⟩

/-- `random::BesselSampler::sample` (random.cc lines 57-63): `n_smaller` is
the drawn smaller member — `round(normal(mu_, sigma_))` in the
Gaussian-approximation branch, `dist_()` in the direct-sampling branch; in
both branches the returned pair is assembled the same way from it. -/
def BesselSampler.sample (s : BesselSampler) (n_smaller : ℤ) : ℤ × ℤ :=
  if s.N_is_positive then (n_smaller + s.N, n_smaller)
  else (n_smaller, n_smaller + s.N)

/--
**C4**.  For every `BesselSampler` constructed with two non-negative means
and a fixed difference `d`, every pair `(first, second)` returned by
`sample()` satisfies `first - second = d`, whichever branch produced the
drawn smaller member. -/
theorem bessel_sample_fixed_difference (poisson_mean1 poisson_mean2 : ℚ)
    (d n_smaller : ℤ)
    (h1 : 0 ≤ poisson_mean1) (h2 : 0 ≤ poisson_mean2) :
    ((BesselSampler.construct poisson_mean1 poisson_mean2 d).sample n_smaller).1
      - ((BesselSampler.construct poisson_mean1 poisson_mean2 d).sample n_smaller).2
      = d := by
  unfold BesselSampler.construct BesselSampler.sample
  by_cases hd : 0 ≤ d
  · rw [if_pos (by simpa using hd)]
    dsimp only
    omega
  · rw [if_neg (by simpa using hd)]
    dsimp only
    omega

/-- Witness for `bessel_sample_fixed_difference` at concrete non-negative
means, a negative fixed difference and a concrete draw. -/
theorem bessel_sample_fixed_difference_witness :
    (0 : ℚ) ≤ 1 ∧ (0 : ℚ) ≤ 2 ∧
    ((BesselSampler.construct 1 2 (-3)).sample 5).1
      - ((BesselSampler.construct 1 2 (-3)).sample 5).2 = -3 :=
  ⟨by norm_num, by norm_num,
   bessel_sample_fixed_difference 1 2 (-3) 5 (by norm_num) (by norm_num)⟩

/-- `string_excitation` (pythia.cc): under `#ifdef PYTHIA_FOUND` the call
runs the external Pythia event generator and returns the outgoing particle
list (abstracted here as the argument `pythia_outgoing`, a list of PDG
codes); in the `#else` branch every call throws
`std::runtime_error("Pythia 8 not available for string excitation")`,
modelled by `Except.error` of that message.  `pythia_found` models the
compile-time `PYTHIA_FOUND` flag. -/
def string_excitation (pythia_found : Bool) (pythia_outgoing : List ℤ) :
    Except String (List ℤ) :=
  if pythia_found then .ok pythia_outgoing
  else .error "Pythia 8 not available for string excitation"

/--
**C5** counterexample.  When Pythia is not compiled in, a call of
`string_excitation` during the simulation *does* fail per-call: it throws a
runtime error rather than the unavailability having been reported once as a
startup configuration error. -/
theorem string_excitation_per_call_failure :
    string_excitation false []
      = Except.error "Pythia 8 not available for string excitation" := rfl

/--
**C5** (amended).  When the external string-excitation process generator is
unavailable (Pythia not compiled in), every call of `string_excitation`
throws a runtime error with the message
"Pythia 8 not available for string excitation"; the unavailability
surfaces as a per-call failure at simulation time, not as a configuration
error reported once at startup. -/
theorem string_excitation_unavailable_error (pythia_outgoing : List ℤ) :
    string_excitation false pythia_outgoing
      = Except.error "Pythia 8 not available for string excitation" := rfl

/-- The fields of `Action` read by `Action::operator<` and by the claimed
weight tie-break: the scheduled time of execution and the total weight. -/
structure ActionOrd where
  time_of_execution : ℚ
  total_weight : ℚ
deriving DecidableEq, Repr

/-- `Action::operator<` (action.h lines 340-343):
`return time_of_execution_ < rhs.time_of_execution_;`. -/
def actionLess (a rhs : ActionOrd) : Bool :=
  decide (a.time_of_execution < rhs.time_of_execution)

/-- The ordering exactly as the specification words it (for comparison
with `actionLess`): earlier scheduled time first, and at identical
scheduled times the action with the larger total weight first. -/
def specActionLess (a rhs : ActionOrd) : Bool :=
  decide (a.time_of_execution < rhs.time_of_execution) ||
    (decide (a.time_of_execution = rhs.time_of_execution) &&
      decide (rhs.total_weight < a.total_weight))

/--
**C7** counterexample.  For two actions with identical scheduled time and
total weights 5 and 1, the claimed ordering prefers the heavier action,
but `Action::operator<` does not: it compares only the times, so neither
action precedes the other. -/
theorem action_order_weight_counterexample :
    specActionLess ⟨1, 5⟩ ⟨1, 1⟩ = true ∧
    actionLess ⟨1, 5⟩ ⟨1, 1⟩ = false ∧
    actionLess ⟨1, 1⟩ ⟨1, 5⟩ = false := by
  refine ⟨?_, ?_, ?_⟩ <;> norm_num [specActionLess, actionLess]

/--
**C7** (amended).  `Action::operator<` sorts candidate actions by scheduled
time of execution ascending and by nothing else: `a < b` holds exactly when
`a`'s time is strictly smaller, so two actions with identical scheduled
time are mutually unordered by the comparator — no total-weight preference
is applied by `operator<`, and any insertion-order stability comes from the
sorting context, not from the comparator. -/
theorem action_order_time_only (a b : ActionOrd) :
    (actionLess a b = true ↔ a.time_of_execution < b.time_of_execution) ∧
    (a.time_of_execution = b.time_of_execution →
      actionLess a b = false ∧ actionLess b a = false) := by
  constructor
  · simp [actionLess]
  · intro h
    simp [actionLess, h]

/-- Witness for the equal-time hypothesis of `action_order_time_only` at
two concrete equal-time actions. -/
theorem action_order_time_only_witness :
    ((1 : ℚ) = 1) ∧
    (actionLess ⟨1, 5⟩ ⟨1, 1⟩ = true ↔ (1 : ℚ) < 1) ∧
    (actionLess ⟨1, 5⟩ ⟨1, 1⟩ = false ∧ actionLess ⟨1, 1⟩ ⟨1, 5⟩ = false) :=
  ⟨rfl, (action_order_time_only ⟨1, 5⟩ ⟨1, 1⟩).1,
   (action_order_time_only ⟨1, 5⟩ ⟨1, 1⟩).2 rfl⟩

/-- The acceptance condition of the rejection loop in `Random::expo`
(random.h lines 91-101): the loop repeats `while ((x<x1) + (x<x2) != 1)`,
so a candidate `x` is returned exactly when that boolean-arithmetic sum
equals 1. -/
def expoAccept (x1 x2 x : ℚ) : Bool :=
  ((if x < x1 then 1 else 0) + (if x < x2 then 1 else 0) : ℕ) == 1

/-- The do-while rejection loop of `Random::expo`: successive candidates
`x = log(uniform(r1,r2))/A` are drawn until one satisfies the acceptance
condition.  The candidate stream abstracts the draws (the logarithmic
transform is not needed for the bounds property), and the returned value is
the first accepted candidate. -/
def expoLoop (x1 x2 : ℚ) (candidates : List ℚ) : Option ℚ :=
  candidates.find? (expoAccept x1 x2)

/--
**C9**.  Whenever the `Random::expo` rejection loop returns a value `x`,
exactly one of `x < x1` and `x < x2` holds, which is equivalent to
`min x1 x2 ≤ x` and `x < max x1 x2`, regardless of which of `x1`, `x2` is
larger. -/
theorem expo_between_bounds (x1 x2 : ℚ) (candidates : List ℚ) (x : ℚ)
    (h : expoLoop x1 x2 candidates = some x) :
    ((x < x1 ∧ ¬x < x2) ∨ (¬x < x1 ∧ x < x2)) ∧
    min x1 x2 ≤ x ∧ x < max x1 x2 := by
  have hacc : expoAccept x1 x2 x = true := List.find?_some h
  unfold expoAccept at hacc
  by_cases h1 : x < x1 <;> by_cases h2 : x < x2 <;>
    simp only [h1, h2, if_true, if_false, beq_iff_eq] at hacc <;>
    first
    | omega
    | · constructor
        · tauto
        · constructor
          · rcases le_total x1 x2 with hle | hle <;>
              simp [min_eq_left, min_eq_right, hle] <;> linarith
          · rcases le_total x1 x2 with hle | hle <;>
              simp [max_eq_left, max_eq_right, hle] <;> linarith

/-- Witness for `expo_between_bounds`: with bounds 0 and 10 the candidate
20 is rejected and the candidate 5 is accepted and lies in [0, 10). -/
theorem expo_between_bounds_witness :
    expoLoop 0 10 [20, 5] = some 5 ∧
    (((5 : ℚ) < 0 ∧ ¬(5 : ℚ) < 10) ∨ (¬(5 : ℚ) < 0 ∧ (5 : ℚ) < 10)) ∧
    min (0 : ℚ) 10 ≤ 5 ∧ (5 : ℚ) < max 0 10 := by
  have h : expoLoop 0 10 [20, 5] = some 5 := by decide
  exact ⟨h, expo_between_bounds 0 10 [20, 5] 5 h⟩

/-- One datum written to the binary collision-output file
(binaryoutput.cc): a raw character, a 32-bit unsigned integer, a 32-bit
signed integer, or an 8-byte double (modelled by `ℚ`). -/
inductive BinToken where
  | ch : Char → BinToken
  | u32 : ℕ → BinToken
  | i32 : ℤ → BinToken
  | f64 : ℚ → BinToken
deriving DecidableEq, Repr

/-- The particle data consumed by
`BinaryOutputBase::write_particledata` (binaryoutput.cc lines 155-174):
position and momentum four-vectors, effective mass, decimal PDG code,
particle id and charge, plus the interaction-history fields written only
in the extended format. -/
structure ParticleRec where
  position : List ℚ
  mass : ℚ
  momentum : List ℚ
  pdg : ℤ
  pid : ℤ
  charge : ℤ
  ncoll : ℤ
  form_time : ℚ
  xsecfac : ℚ
  history_id_process : ℕ
  history_process_type : ℕ
  time_last_coll : ℚ
  pdg_mother1 : ℤ
  pdg_mother2 : ℤ
deriving DecidableEq, Repr

/-- `BinaryOutputBase::write_particledata`: position, effective mass,
momentum, PDG code, id and charge, followed — in the extended format
only — by the history record (collision count, formation time,
cross-section scaling factor, origin process id and type, time of last
collision, mother PDG codes). -/
def write_particledata (extended : Bool) (p : ParticleRec) : List BinToken :=
  p.position.map BinToken.f64 ++ [BinToken.f64 p.mass]
    ++ p.momentum.map BinToken.f64
    ++ [BinToken.i32 p.pdg, BinToken.i32 p.pid, BinToken.i32 p.charge]
    ++ (if extended then
          [BinToken.i32 p.ncoll, BinToken.f64 p.form_time,
           BinToken.f64 p.xsecfac, BinToken.u32 p.history_id_process,
           BinToken.u32 p.history_process_type,
           BinToken.f64 p.time_last_coll, BinToken.i32 p.pdg_mother1,
           BinToken.i32 p.pdg_mother2]
        else [])

/-- `BinaryOutputBase::write(const ParticleList&)` /
`write(const Particles&)`: one particle-data record per particle. -/
def writeParticleList (extended : Bool) (ps : List ParticleRec) : List BinToken :=
  ps.flatMap (write_particledata extended)

/-- The data of a committed `Action` read by the collision output: the
incoming and outgoing particle lists, the process id the action was
stamped with when performed, the total and partial weights and the
process-type tag. -/
structure ActionRecord where
  incoming : List ParticleRec
  outgoing : List ParticleRec
  id_process : ℕ
  total_weight : ℚ
  partial_weight : ℚ
  ptype : ℕ
deriving DecidableEq, Repr

/-- `BinaryOutputCollisions::at_interaction` (binaryoutput.cc lines
214-229): the interaction block header `'i'`, the incoming and outgoing
particle counts, the density, the total and partial weights and the
process-type tag, followed by the incoming and outgoing particle lines. -/
def at_interaction (extended : Bool) (action : ActionRecord) (density : ℚ) :
    List BinToken :=
  [BinToken.ch 'i', BinToken.u32 action.incoming.length,
   BinToken.u32 action.outgoing.length, BinToken.f64 density,
   BinToken.f64 action.total_weight, BinToken.f64 action.partial_weight,
   BinToken.u32 action.ptype]
    ++ writeParticleList extended action.incoming
    ++ writeParticleList extended action.outgoing

theorem write_particledata_sublist {extended : Bool} {p : ParticleRec}
    {ps : List ParticleRec} (h : p ∈ ps) :
    (write_particledata extended p).Sublist (writeParticleList extended ps) := by
  induction ps with
  | nil => cases h
  | cons q rest ih =>
    simp only [writeParticleList, List.flatMap_cons] at *
    rcases List.mem_cons.mp h with rfl | hmem
    · exact List.sublist_append_left _ _
    · exact (ih hmem).trans (List.sublist_append_right _ _)

/--
**C8** (amended).  For every committed action, the interaction record
written by `BinaryOutputCollisions::at_interaction` contains the action's
incoming particle lines, outgoing particle lines, process-type tag, the
density context value and the total and partial weights — but not the
action's process id (see the counterexample). -/
theorem at_interaction_record_contents (extended : Bool)
    (action : ActionRecord) (density : ℚ) :
    (∀ p ∈ action.incoming,
      (write_particledata extended p).Sublist
        (at_interaction extended action density)) ∧
    (∀ p ∈ action.outgoing,
      (write_particledata extended p).Sublist
        (at_interaction extended action density)) ∧
    BinToken.u32 action.ptype ∈ at_interaction extended action density ∧
    BinToken.f64 density ∈ at_interaction extended action density ∧
    BinToken.f64 action.total_weight ∈ at_interaction extended action density ∧
    BinToken.f64 action.partial_weight ∈ at_interaction extended action density := by
  refine ⟨?_, ?_, ?_, ?_, ?_, ?_⟩
  · intro p hp
    unfold at_interaction
    exact ((write_particledata_sublist hp).trans
      (List.sublist_append_right _ _)).trans (List.sublist_append_left _ _)
  · intro p hp
    unfold at_interaction
    exact (write_particledata_sublist hp).trans (List.sublist_append_right _ _)
  all_goals simp [at_interaction]

/-- Witness for `at_interaction_record_contents` at a concrete action with
one incoming and one outgoing particle. -/
theorem at_interaction_record_contents_witness :
    (write_particledata false
        ⟨[0,0,0,0], 1, [0,0,0,0], 211, 4, 1, 0, 0, 1, 0, 0, 0, 0, 0⟩).Sublist
      (at_interaction false
        ⟨[⟨[0,0,0,0], 1, [0,0,0,0], 211, 4, 1, 0, 0, 1, 0, 0, 0, 0, 0⟩],
         [], 99, 4, 2, 6⟩ 7) ∧
    BinToken.u32 6 ∈ at_interaction false
        ⟨[⟨[0,0,0,0], 1, [0,0,0,0], 211, 4, 1, 0, 0, 1, 0, 0, 0, 0, 0⟩],
         [], 99, 4, 2, 6⟩ 7 :=
  ⟨(at_interaction_record_contents false _ 7).1 _ (by simp),
   (at_interaction_record_contents false _ 7).2.2.1⟩

/--
**C8** counterexample.  A concrete committed action stamped with process
id 99: no token of the interaction record written by `at_interaction`
carries the value 99 in any encoding — the process id is not part of the
record. -/
theorem at_interaction_missing_process_id :
    (⟨[⟨[0,0,0,0], 1, [0,0,0,0], 211, 4, 1, 0, 0, 1, 0, 0, 0, 0, 0⟩],
      [], 99, 4, 2, 6⟩ : ActionRecord).id_process = 99 ∧
    BinToken.u32 99 ∉ at_interaction false
      ⟨[⟨[0,0,0,0], 1, [0,0,0,0], 211, 4, 1, 0, 0, 1, 0, 0, 0, 0, 0⟩],
       [], 99, 4, 2, 6⟩ 7 ∧
    BinToken.i32 99 ∉ at_interaction false
      ⟨[⟨[0,0,0,0], 1, [0,0,0,0], 211, 4, 1, 0, 0, 1, 0, 0, 0, 0, 0⟩],
       [], 99, 4, 2, 6⟩ 7 ∧
    BinToken.f64 99 ∉ at_interaction false
      ⟨[⟨[0,0,0,0], 1, [0,0,0,0], 211, 4, 1, 0, 0, 1, 0, 0, 0, 0, 0⟩],
       [], 99, 4, 2, 6⟩ 7 := by
  refine ⟨rfl, ?_, ?_, ?_⟩ <;> decide

/-- The particle block written by `BinaryOutputCollisions::at_eventstart` /
`at_eventend` when printing of start/end particle lists is enabled: the
block header `'p'`, the particle count, then one line per particle. -/
def write_particle_block (extended : Bool) (ps : List ParticleRec) :
    List BinToken :=
  [BinToken.ch 'p', BinToken.u32 ps.length] ++ writeParticleList extended ps

/-- `BinaryOutputCollisions::at_eventstart` (binaryoutput.cc lines
184-192): the particle block is written only when the
`print_start_end_` option is set; otherwise nothing is written. -/
def at_eventstart (print_start_end extended : Bool)
    (particles : List ParticleRec) : List BinToken :=
  if print_start_end then write_particle_block extended particles else []

/-- What `BinaryOutputCollisions::at_eventend` does: the tokens it writes
and whether it flushed the file. -/
structure EventEndEffect where
  tokens : List BinToken
  flushed : Bool
deriving DecidableEq, Repr

/-- `BinaryOutputCollisions::at_eventend` (binaryoutput.cc lines 194-212):
optionally (under `print_start_end_`) the final particle block, then
always the event end line `'f'`, the event number and the impact
parameter, followed by a flush of the file. -/
def at_eventend (print_start_end extended : Bool)
    (particles : List ParticleRec) (event_number : ℤ)
    (impact_parameter : ℚ) : EventEndEffect :=
  { tokens :=
      (if print_start_end then write_particle_block extended particles else [])
        ++ [BinToken.ch 'f', BinToken.i32 event_number,
            BinToken.f64 impact_parameter],
    flushed := true }

/--
**C10**.  `BinaryOutputCollisions` writes the full particle-set block (the
`'p'` block) at event start and at event end exactly when the
print-start-end option is enabled; independently of that option,
`at_eventend` always ends its output with the event-end record — the `'f'`
character, the event number and the impact parameter — and flushes the
file. -/
theorem binary_collisions_event_end_record (print_start_end extended : Bool)
    (particles : List ParticleRec) (event_number : ℤ)
    (impact_parameter : ℚ) :
    (BinToken.ch 'p' ∈ at_eventstart print_start_end extended particles
      ↔ print_start_end = true) ∧
    (BinToken.ch 'p' ∈ (at_eventend print_start_end extended particles
        event_number impact_parameter).tokens
      ↔ print_start_end = true) ∧
    (∃ leading, (at_eventend print_start_end extended particles
        event_number impact_parameter).tokens
      = leading ++ [BinToken.ch 'f', BinToken.i32 event_number,
                    BinToken.f64 impact_parameter]) ∧
    (at_eventend print_start_end extended particles
        event_number impact_parameter).flushed = true := by
  refine ⟨?_, ?_,
    ⟨if print_start_end then write_particle_block extended particles else [],
     rfl⟩, rfl⟩ <;>
  cases print_start_end <;>
    simp [at_eventstart, at_eventend, write_particle_block]

/-- The engine of the random sampling service is `std::ranlux48`
(random.h: `using Engine = std::ranlux48`), i.e. a
`subtract_with_carry_engine<uint64_t, 48, 5, 12>` filtered through a
`discard_block_engine<_, 389, 11>`, as laid down by the C++ standard.  The
word size of the base engine. -/
def swcModulus : ℕ := 2 ^ 48

/-- One step of the linear congruential generator
`x := 40014 * x mod 2147483563` that the C++ standard prescribes for
seeding a subtract-with-carry engine from a single integer seed. -/
def lcgStep (z : ℕ) : ℕ := (40014 * z) % 2147483563

/-- The initial value of the seeding generator for
`Engine::seed(s)`: a zero seed is replaced by the default seed
19780503, and the value is reduced modulo the generator modulus (with 0
mapped to 1). -/
def lcgInit (s : ℕ) : ℕ :=
  let v := if s = 0 then 19780503 else s
  let z := v % 2147483563
  if z = 0 then 1 else z

/-- The first `k` outputs of the seeding generator started at `z`. -/
def lcgStream : ℕ → ℕ → List ℕ
  | 0, _ => []
  | k + 1, z => lcgStep z :: lcgStream k (lcgStep z)

/-- Assemble 48-bit state words from consecutive pairs of 32-bit seeding
outputs (low word first), as the standard prescribes for a 48-bit
subtract-with-carry engine. -/
def combinePairs : List ℕ → List ℕ
  | a :: b :: rest => (a + b * 2 ^ 32) % swcModulus :: combinePairs rest
  | _ => []

/-- The state of the embedded `std::ranlux48`: the last 12 words of the
subtract-with-carry sequence (oldest first), the carry, and the position
inside the current block of the block-discarding wrapper. -/
structure RanluxEngine where
  xs : List ℕ
  carry : ℕ
  blockPos : ℕ
deriving DecidableEq, Repr

/-- One transition of `subtract_with_carry_engine<uint64_t, 48, 5, 12>`:
`y = x(i-5) - x(i-12) - c`; the new word is `y mod 2^48` and the new carry
is 1 exactly when `y` was negative. -/
def swcStep (xs : List ℕ) (carry : ℕ) : ℕ × List ℕ × ℕ :=
  let y : ℤ := (xs.getD 7 0 : ℤ) - (xs.getD 0 0 : ℤ) - (carry : ℤ)
  let w : ℕ := (y % (swcModulus : ℤ)).toNat
  (w, xs.drop 1 ++ [w], if y < 0 then 1 else 0)

/-- Advance the base engine without using the value. -/
def swcSkip (st : List ℕ × ℕ) : List ℕ × ℕ :=
  ((swcStep st.1 st.2).2.1, (swcStep st.1 st.2).2.2)

/-- One draw from `std::ranlux48`: the block-discarding wrapper
(`discard_block_engine<_, 389, 11>`) uses only the first 11 values of each
block of 389 base values, so after 11 delivered values it skips 378 base
transitions before the next draw. -/
def ranluxNext (e : RanluxEngine) : ℕ × RanluxEngine :=
  let st0 : List ℕ × ℕ :=
    if 11 ≤ e.blockPos then swcSkip^[378] (e.xs, e.carry) else (e.xs, e.carry)
  let pos0 : ℕ := if 11 ≤ e.blockPos then 0 else e.blockPos
  let r := swcStep st0.1 st0.2
  (r.1, ⟨r.2.1, r.2.2, pos0 + 1⟩)

/-- `Random::set_seed` (random.h lines 60-62): seed the shared engine.
Per the standard, the 12 state words are produced from the seeding
generator two 32-bit outputs apiece, and the carry is 1 exactly when the
last seeded word is 0. -/
def set_seed (s : ℕ) : RanluxEngine :=
  let words := combinePairs (lcgStream 24 (lcgInit s))
  { xs := words,
    carry := if words.getLast? = some 0 then 1 else 0,
    blockPos := 0 }

/-- `Random::uniform(min, max)` (random.h lines 65-67): one draw from the
shared engine mapped affinely into `[min, max)`.  The exact mapping of
`std::uniform_real_distribution` is implementation-defined; modelled from
the spec as the drawn 48-bit word scaled by `2^-48` (the draw-consumption
and determinism behaviour is what matters here). -/
def uniform (min max : ℚ) (e : RanluxEngine) : ℚ × RanluxEngine :=
  let r := ranluxNext e
  (min + ((r.1 : ℚ) / (swcModulus : ℚ)) * (max - min), r.2)

/-- Two successive runs of `Action::choose_channel` on the same subprocess
list, the shared engine being reseeded to the same seed before each run:
each run draws `random_weight = uniform(0, total_weight)` and walks the
list once. -/
def chooseChannelTwoRuns (subprocesses : List ProcessBranch)
    (total_weight : ℚ) (seed : ℕ) :
    Except ChooseChannelFailure ProcessBranch ×
      Except ChooseChannelFailure ProcessBranch :=
  let e1 := set_seed seed
  let d1 := uniform 0 total_weight e1
  let first := choose_channel subprocesses total_weight d1.1
  let e2 := set_seed seed
  let d2 := uniform 0 total_weight e2
  let second := choose_channel subprocesses total_weight d2.1
  (first, second)

/--
**C6**.  Channel selection is deterministic given a fixed random stream:
two runs of `choose_channel` on the same channel list, with the shared
engine reseeded to the same state before each run, draw the same value and
select the same channel. -/
theorem choose_channel_reseeded_deterministic
    (subprocesses : List ProcessBranch) (total_weight : ℚ) (seed : ℕ) :
    (chooseChannelTwoRuns subprocesses total_weight seed).1
      = (chooseChannelTwoRuns subprocesses total_weight seed).2 := rfl

end Smash
